import Mathlib

/-!
Shallow embedding of the normalizer engine (hiscaler/normalizer, normalizer.go)
and proofs about the claims on its specification.

The Go code is translated function by function: the engine state (struct
Normalizer), the setters (SetSeparator, SetOriginalText, SetLabels,
SetPatterns), Validate and Parse.  Go strings are Lean Strings; Go maps are
association lists with update-or-append ("last write wins") semantics; the
dynamic type interface{} is the closed inductive GoValue, covering the value
shapes the engine can actually produce or receive from a JSON configuration.
Standard-library and third-party helpers used by the source (strings.*,
strconv.*, sort.Slice, strings.NewReplacer, spf13/cast, gox/stringx) are
embedded with their documented behaviour; any approximation is noted at the
definition.
-/

/-- Value universe for Go interface{} fields.  Arrays are modelled as string
lists because every array the engine produces is a []interface{} whose
elements are strings (slicex.StringToInterface over a string split), and
array defaults are coerced by SetPatterns before storage. vFloat carries the
parsed value as an exact rational; no claim observes IEEE-754 rounding. -/
inductive GoValue where
  | vNull
  | vStr (s : String)
  | vBool (b : Bool)
  | vInt (i : Int)
  | vFloat (q : Rat)
  | vArr (elems : List String)
deriving DecidableEq, Repr

/-- Go unicode.IsSpace: ASCII whitespace, NEL, NBSP and the Unicode
White_Space code points (including the full-width space U+3000). -/
def goIsSpace (c : Char) : Bool :=
  c.val = 9 || c.val = 10 || c.val = 11 || c.val = 12 || c.val = 13 || c.val = 32 ||
  c.val = 0x85 || c.val = 0xA0 || c.val = 0x1680 ||
  (0x2000 ≤ c.val && c.val ≤ 0x200A) ||
  c.val = 0x2028 || c.val = 0x2029 || c.val = 0x202F || c.val = 0x205F || c.val = 0x3000

/-- Go strings.TrimSpace. -/
def goTrimSpace (s : String) : String :=
  String.mk (((s.data.dropWhile goIsSpace).reverse.dropWhile goIsSpace).reverse)

/-- Go strings.ToLower.  Lean's Char.toLower lowers the ASCII range; Go's
ToLower is full Unicode, but the two agree on every string the repository
handles (ASCII labels and values, CJK text without case). -/
def goToLower (s : String) : String :=
  String.mk (s.data.map Char.toLower)

/-- Go strings.HasPrefix. -/
def goStartsWith (s pre : String) : Bool :=
  pre.data.isPrefixOf s.data

/-- Go strings.Contains (substring containment; Contains s "" is true). -/
def goContains (s sub : String) : Bool :=
  (List.range (s.data.length + 1)).any (fun i => sub.data.isPrefixOf (s.data.drop i))

/-- Go strings.EqualFold.  Go uses Unicode simple case folding; on the ASCII
keywords and labels of this repository that coincides with lower-casing both
sides. -/
def goEqualFold (s t : String) : Bool :=
  goToLower s == goToLower t

/-- Splitting worker: scans the character list, cutting at each occurrence of
the (non-empty) separator.  The fuel argument starts at length + 1 and every
step consumes at least one character, so the fuel-exhausted arm is never
reached; it is present only to make the recursion structural. -/
def goSplitAux (sep : List Char) : Nat → List Char → List Char → List (List Char)
  | _, acc, [] => [acc.reverse]
  | 0, acc, s => [acc.reverse ++ s]
  | fuel + 1, acc, c :: rest =>
    if sep.isPrefixOf (c :: rest) then
      acc.reverse :: goSplitAux sep fuel [] ((c :: rest).drop sep.length)
    else
      goSplitAux sep fuel (c :: acc) rest

/-- Go strings.Split.  With an empty separator Go splits into runes. -/
def goSplit (s sep : String) : List String :=
  if sep.data.isEmpty then s.data.map (fun c => String.mk [c])
  else (goSplitAux sep.data (s.data.length + 1) [] s.data).map String.mk

/-- Go strconv.ParseBool: returns the parsed value and, Go-style, the error
message; on failure the value is false. -/
def goParseBool (s : String) : Bool × Option String :=
  if ["1", "t", "T", "TRUE", "true", "True"].any (fun x => x == s) then (true, none)
  else if ["0", "f", "F", "FALSE", "false", "False"].any (fun x => x == s) then (false, none)
  else (false, some ("strconv.ParseBool: parsing \"" ++ s ++ "\": invalid syntax"))

/-- Decimal digits to a number; none when the list is empty or holds a
non-digit. -/
def decDigits : List Char → Option Nat
  | [] => none
  | cs =>
    cs.foldl
      (fun acc c =>
        match acc with
        | none => none
        | some a => if c.isDigit then some (a * 10 + (c.toNat - 48)) else none)
      (some 0)

/-- Go strconv.ParseInt(s, 10, 64): optional sign and decimal digits; on a
syntax error the value is 0, on overflow the value saturates at the int64
bounds and a range error is reported. -/
def goParseInt (s : String) : Int × Option String :=
  let invalid : Int × Option String :=
    (0, some ("strconv.ParseInt: parsing \"" ++ s ++ "\": invalid syntax"))
  let signed : Bool × List Char :=
    match s.data with
    | '+' :: rest => (false, rest)
    | '-' :: rest => (true, rest)
    | cs => (false, cs)
  match decDigits signed.2 with
  | none => invalid
  | some n =>
    let v : Int := if signed.1 then -(n : Int) else (n : Int)
    if v > 9223372036854775807 then
      (9223372036854775807, some ("strconv.ParseInt: parsing \"" ++ s ++ "\": value out of range"))
    else if v < -9223372036854775808 then
      (-9223372036854775808, some ("strconv.ParseInt: parsing \"" ++ s ++ "\": value out of range"))
    else (v, none)

/-- Go strconv.ParseFloat(s, 64), restricted to the plain decimal forms
(sign, integer part, optional fraction, optional decimal exponent) that the
engine's rule sets feed it; hex floats, inf and nan are not modelled and no
claim exercises them.  The result is kept as the exact rational; Go rounds it
to the nearest float64, a difference no claim observes.  On a syntax error
the value is 0. -/
def goParseFloat (s : String) : Rat × Option String :=
  let invalid : Rat × Option String :=
    (0, some ("strconv.ParseFloat: parsing \"" ++ s ++ "\": invalid syntax"))
  let signed : Bool × List Char :=
    match s.data with
    | '+' :: rest => (false, rest)
    | '-' :: rest => (true, rest)
    | cs => (false, cs)
  let intPart := signed.2.takeWhile Char.isDigit
  let afterInt := signed.2.dropWhile Char.isDigit
  let fracState : Option (List Char × List Char) :=
    match afterInt with
    | '.' :: rest => some (rest.takeWhile Char.isDigit, rest.dropWhile Char.isDigit)
    | cs => some ([], cs)
  match fracState with
  | none => invalid
  | some (fracPart, afterFrac) =>
    if intPart.isEmpty && fracPart.isEmpty then invalid
    else
      let mantissa : Rat :=
        ((decDigits (intPart ++ fracPart)).getD 0 : Int) / ((10 : Rat) ^ fracPart.length)
      let expPart : Option Int :=
        match afterFrac with
        | [] => some 0
        | 'e' :: rest | 'E' :: rest =>
          let esigned : Bool × List Char :=
            match rest with
            | '+' :: r => (false, r)
            | '-' :: r => (true, r)
            | r => (false, r)
          match decDigits esigned.2 with
          | some e => some (if esigned.1 then -(e : Int) else (e : Int))
          | none => none
        | _ => none
      match expPart with
      | none => invalid
      | some e =>
        let v := (if signed.1 then -mantissa else mantissa) * (10 : Rat) ^ e
        (v, none)

/-- First-match-wins single-pass multi-replace, the behaviour of Go
strings.NewReplacer(...).Replace: at each position the replacement pairs are
tried in argument order; a match emits the replacement and skips the matched
key, otherwise one character is copied.  Fuel starts above the remaining
length and every step consumes at least one character (empty keys are removed
by SetPatterns before any call), so the fuel-exhausted arm is unreachable. -/
def goReplaceAux (pairs : List (String × String)) : Nat → List Char → List Char
  | _, [] => []
  | 0, s => s
  | fuel + 1, c :: rest =>
    match pairs.find? (fun kv => !(kv.1 == "") && kv.1.data.isPrefixOf (c :: rest)) with
    | some kv => kv.2.data ++ goReplaceAux pairs fuel ((c :: rest).drop kv.1.data.length)
    | none => c :: goReplaceAux pairs fuel rest

/-- Go strings.NewReplacer(oldNews...).Replace(s). -/
def goReplace (pairs : List (String × String)) (s : String) : String :=
  String.mk (goReplaceAux pairs (s.data.length + 1) s.data)

/-- Go strings.Join. -/
def goJoin (parts : List String) (sep : String) : String :=
  String.intercalate sep parts

/-- Membership in a string list, mirroring gox inx.StringIn. -/
def strIn (x : String) (xs : List String) : Bool :=
  xs.any (fun y => y == x)

/-- gox stringx.Split(s, seps...): modelled from the library's documented
behaviour and the repository's README example — the value is cut at every
occurrence of every separator token (each a literal), the pieces are trimmed,
and blank pieces are dropped, so an empty input yields an empty list. -/
def stringxSplit (s : String) (seps : List String) : List String :=
  let pieces := seps.foldl
    (fun acc sep => (acc.map (fun piece => goSplit piece sep)).flatten) [s]
  (pieces.map goTrimSpace).filter (fun x => !(x == ""))

/-- Match-method constant ExactMatch (normalizer.go). -/
def ExactMatch : Nat := 0

/-- Match-method constant FuzzyMatch (normalizer.go). -/
def FuzzyMatch : Nat := 1

/-- Value-type constant names (normalizer.go). -/
def booleanValueType : String := "boolean"

def stringValueType : String := "string"

def arrayValueType : String := "array"

def intValueType : String := "int"

def floatValueType : String := "float"

/-- struct ValueTransform.  The Replaces Go map is an association list in
configuration order; the engine only ever iterates it or looks keys up, and
where Go's unspecified map iteration order could matter (equal-length
replacement keys, colliding lower-cased keys) no claim depends on it. -/
structure ValueTransform where
  MatchMethod : Nat
  Replaces : List (String × String)
  Separators : List String
deriving DecidableEq, Repr

/-- struct NormalizePattern. -/
structure NormalizePattern where
  Labels : List String
  MatchMethod : Nat
  Separator : String
  ValueKey : String
  Transform : ValueTransform
  ValueType : String
  DefaultValue : GoValue
deriving DecidableEq, Repr

/-- The Items map (map[string]interface{}) as an association list with
update-or-append writes. -/
abbrev Items := List (String × GoValue)

/-- Key membership test on the Items map. -/
def itemsHas (its : Items) (k : String) : Bool :=
  its.any (fun kv => kv.1 == k)

/-- Map read. -/
def itemsLookup (its : Items) (k : String) : Option GoValue :=
  (its.find? (fun kv => kv.1 == k)).map (fun kv => kv.2)

/-- Map write: overwrite an existing key in place, else append. -/
def itemsSet (its : Items) (k : String) (v : GoValue) : Items :=
  if itemsHas its k then its.map (fun kv => if kv.1 == k then (k, v) else kv)
  else its ++ [(k, v)]

/-- struct Normalizer: the engine state. -/
structure Normalizer where
  labels : List String
  Errors : List String
  OriginalText : String
  Separator : String
  Patterns : List NormalizePattern
  ItemsMap : Items

/-- NewNormalizer(). -/
def newNormalizer : Normalizer :=
  { labels := [], Errors := [], OriginalText := "", Separator := "\n",
    Patterns := [], ItemsMap := [] }

/-- SetSeparator. -/
def setSeparator (n : Normalizer) (sep : String) : Normalizer :=
  { n with Separator := sep }

/-- SetOriginalText: trims the text and resets the result map and the error
list. -/
def setOriginalText (n : Normalizer) (text : String) : Normalizer :=
  { n with OriginalText := goTrimSpace text, ItemsMap := [], Errors := [] }

/-- cleanLabel (normalizer.go): trim and lower-case. -/
def cleanLabel (label : String) : String :=
  if label = "" then "" else goToLower (goTrimSpace label)

/-- Insert into the label set (map[string]struct{}) keeping one copy. -/
def addLabel (acc : List String) (l : String) : List String :=
  if strIn l acc then acc else acc ++ [l]

/-- SetLabels: replaces the label set with the cleaned input labels. -/
def setLabels (n : Normalizer) (labels : List String) : Normalizer :=
  { n with labels :=
      (labels.foldl
        (fun acc lbl =>
          let l := cleanLabel lbl
          if l = "" then acc else addLabel acc l) []) }

/-- spf13 cast.ToBool with the error swallowed (zero value false). -/
def castToBool : GoValue → Bool
  | .vBool b => b
  | .vInt i => !(i == 0)
  | .vFloat q => !(q == 0)
  | .vStr s => (goParseBool s).1
  | .vNull => false
  | .vArr _ => false

/-- Truncation toward zero, Go's int(float64). -/
def ratTrunc (q : Rat) : Int :=
  if q < 0 then -((-q).floor) else q.floor

/-- spf13 cast.ToInt with the error swallowed (zero value 0). -/
def castToInt : GoValue → Int
  | .vInt i => i
  | .vBool b => if b then 1 else 0
  | .vFloat q => ratTrunc q
  | .vStr s => (goParseInt s).1
  | .vNull => 0
  | .vArr _ => 0

/-- spf13 cast.ToFloat64 with the error swallowed (zero value 0). -/
def castToFloat64 : GoValue → Rat
  | .vFloat q => q
  | .vInt i => (i : Rat)
  | .vBool b => if b then 1 else 0
  | .vStr s => (goParseFloat s).1
  | .vNull => 0
  | .vArr _ => 0

/-- spf13 cast.ToString with the error swallowed; slices are not
convertible, so they yield the zero value "".  The float arm is a
representation placeholder (Go formats the shortest float64 decimal); no
claim reads it. -/
def castToString : GoValue → String
  | .vStr s => s
  | .vBool b => if b then "true" else "false"
  | .vInt i => toString i
  | .vFloat q => toString q
  | .vNull => ""
  | .vArr _ => ""

/-- The type switch arm `case types.Slice` in SetPatterns tests whether the
default value's dynamic type is go/types.Slice — a struct of the compiler's
type-checker API.  No value deliverable through the configuration (JSON
scalars, arrays, null) has that dynamic type, so the test is false on the
whole value universe; the arm is dead code in the source. -/
def isGoTypesSlice : GoValue → Bool := fun _ => false

/-- cast.ToSlice, reachable only from the dead types.Slice arm. -/
def castToSlice : GoValue → List String
  | .vArr xs => xs
  | _ => []

/-- The default-value coercion performed by SetPatterns per pattern
(normalizer.go lines 436-455). -/
def castDefault (valueType : String) (dv : GoValue) : GoValue :=
  if valueType = booleanValueType then .vBool (castToBool dv)
  else if valueType = arrayValueType then
    (if isGoTypesSlice dv then .vArr (castToSlice dv) else .vArr [])
  else if valueType = intValueType then .vInt (castToInt dv)
  else if valueType = floatValueType then .vFloat (castToFloat64 dv)
  else .vStr (castToString dv)

/-- The per-pattern fixups SetPatterns applies in place: default the segment
separator to ":" and drop empty replacement keys. -/
def fixPattern (p : NormalizePattern) : NormalizePattern :=
  { p with
    Separator := if p.Separator = "" then ":" else p.Separator,
    Transform := { p.Transform with
      Replaces := p.Transform.Replaces.filter (fun kv => !(kv.1 == "")) } }

/-- The Items map seeded with every pattern's coerced default value. -/
def buildItems (ps : List NormalizePattern) : Items :=
  ps.foldl (fun its p => itemsSet its p.ValueKey (castDefault p.ValueType p.DefaultValue)) []

/-- SetPatterns: stores the fixed-up patterns, adds the patterns' cleaned
labels to the existing label set, seeds Items with the coerced defaults and
clears the error list. -/
def setPatterns (n : Normalizer) (patterns : List NormalizePattern) : Normalizer :=
  { n with
    Patterns := patterns.map fixPattern,
    labels :=
      patterns.foldl
        (fun acc p =>
          p.Labels.foldl
            (fun acc2 lbl =>
              let l := cleanLabel lbl
              if l = "" then acc2 else addLabel acc2 l) acc)
        n.labels,
    ItemsMap := buildItems patterns,
    Errors := [] }

/-- Option fallback used to chain the validator's early returns in source
order. -/
def oor (a b : Option String) : Option String :=
  match a with
  | some x => some x
  | none => b

/-- The five recognized value types, in the source's order. -/
def validValueTypes : List String :=
  [stringValueType, booleanValueType, floatValueType, intValueType, arrayValueType]

/-- The joined type list appearing in the invalid-type message. -/
def validTypesJoined : String := goJoin validValueTypes ", "

/-- Validate's per-rule checks, in source order: blank key, unknown value
type, empty label list (i is the zero-based rule index used in messages). -/
def checkPattern (i : Nat) (p : NormalizePattern) : Option String :=
  if goTrimSpace p.ValueKey = "" then
    some ("解析规则第 " ++ toString (i + 1) ++ " 项未设置键名或者为空")
  else if !(strIn p.ValueType validValueTypes) then
    some ("解析规则第 " ++ toString (i + 1) ++ " 项返回值类型 " ++ p.ValueType ++
      " 设置有误，有效的类型为：" ++ validTypesJoined)
  else if p.Labels.length = 0 then
    some ("解析规则第 " ++ toString (i + 1) ++ " 项未设置标签关键词")
  else none

/-- Inner keyword-duplication loop: the first keyword of rule j+1 that
case-folds equal to k1. -/
def keywordDup (i j : Nat) (k1 : String) : List String → Option String
  | [] => none
  | k2 :: rest =>
    if goEqualFold k1 k2 then
      some ("解析规则第 " ++ toString (i + 1) ++ " 项与第 " ++ toString (j + 1) ++
        " 项 " ++ k1 ++ " 标签关键词重复")
    else keywordDup i j k1 rest

/-- Outer keyword-duplication loop over rule i+1's keywords. -/
def labelsDup (i j : Nat) : List String → List String → Option String
  | [], _ => none
  | k1 :: rest, k2s => oor (keywordDup i j k1 k2s) (labelsDup i j rest k2s)

/-- The pairwise checks between rule i+1 and rule j+1: duplicate value key,
then duplicate label keyword. -/
def checkPair (i j : Nat) (p1 p2 : NormalizePattern) : Option String :=
  if goEqualFold p1.ValueKey p2.ValueKey then
    some ("解析规则第 " ++ toString (i + 1) ++ " 项与第 " ++ toString (j + 1) ++
      " 项 " ++ p1.ValueKey ++ " 键名重复")
  else labelsDup i j p1.Labels p2.Labels

/-- The j-loop of Validate: rule i+1 against every later rule. -/
def checkAgainst (i : Nat) (p1 : NormalizePattern) : Nat → List NormalizePattern → Option String
  | _, [] => none
  | j, p2 :: rest => oor (checkPair i j p1 p2) (checkAgainst i p1 (j + 1) rest)

/-- The i-loop of Validate. -/
def validateLoop : Nat → List NormalizePattern → Option String
  | _, [] => none
  | i, p :: rest =>
    oor (checkPattern i p) (oor (checkAgainst i p (i + 1) rest) (validateLoop (i + 1) rest))

/-- Validate (normalizer.go lines 638-676) on the separator and rule list. -/
def validateCore (sep : String) (ps : List NormalizePattern) : Option String :=
  if sep = "" then some "文本行分隔符不能为空"
  else if ps.length = 0 then some "未设置解析规则"
  else validateLoop 0 ps

/-- Validate as the method on the engine state. -/
def validate (n : Normalizer) : Option String :=
  validateCore n.Separator n.Patterns

/-- The resolved-field record built per matched line (the labelValue struct
local to Parse). -/
structure LabelValue where
  key : String
  label : String
  value : String
  valueType : String
  transform : ValueTransform
deriving DecidableEq, Repr

/-- One keyword test inside Parse's matching loop: require the segment
separator in the line, split, trim the first segment, then compare — fuzzy
is substring containment of the lower-cased keyword in the (un-lowered)
label, exact is EqualFold; a match captures key, label, the re-joined
trimmed remainder, value type and transform. -/
def keywordMatch (p : NormalizePattern) (lineText keyword : String) : Option LabelValue :=
  if !(goContains lineText p.Separator) then none
  else
    let segments := goSplit lineText p.Separator
    let label := goTrimSpace (segments.headD "")
    let matched :=
      if p.MatchMethod = FuzzyMatch then goContains label (goToLower keyword)
      else goEqualFold label keyword
    if matched then
      some { key := p.ValueKey, label := label,
             value := goTrimSpace (goJoin (segments.drop 1) p.Separator),
             valueType := p.ValueType, transform := p.Transform }
    else none

/-- The keyword loop of one pattern. -/
def matchKeywords (p : NormalizePattern) : List String → String → Option LabelValue
  | [], _ => none
  | kw :: rest, line =>
    match keywordMatch p line kw with
    | some lv => some lv
    | none => matchKeywords p rest line

/-- The pattern loop: first matching pattern wins, keyword order within a
pattern first. -/
def findMatch : List NormalizePattern → String → Option LabelValue
  | [], _ => none
  | p :: ps, line =>
    match matchKeywords p p.Labels line with
    | some lv => some lv
    | none => findMatch ps line

/-- One iteration of Parse's line loop.  State: the resolved records so far
and the continuation-allowed flag.  A trimmed blank line is skipped.  A line
that does not start with any known label (isPureText) is, when continuation
is allowed, appended as a continuation of the last record — and then still
offered to the matcher, exactly as the source falls through; when no record
exists yet the source continues to the next line.  A failed match on a
label-like line turns continuation off. -/
def classifyLine (labels : List String) (ps : List NormalizePattern)
    (st : List LabelValue × Bool) (line : String) : List LabelValue × Bool :=
  let kvLines := st.1
  let appendText := st.2
  let lineText := goTrimSpace line
  if lineText = "" then st
  else
    let lowerLine := goToLower lineText
    let isPureText := !(labels.any (fun lbl => goStartsWith lowerLine lbl))
    let tryMatch : List LabelValue → List LabelValue × Bool := fun kvs =>
      match findMatch ps lineText with
      | some lv => (kvs ++ [lv], true)
      | none => (kvs, if isPureText then appendText else false)
    if isPureText && appendText then
      match kvLines.getLast? with
      | none => st
      | some lastLv => tryMatch (kvLines ++ [{ lastLv with value := lineText }])
    else tryMatch kvLines

/-- Parse's first pass over all lines. -/
def classifyLines (labels : List String) (ps : List NormalizePattern) :
    List LabelValue × Bool → List String → List LabelValue × Bool
  | st, [] => st
  | st, line :: rest => classifyLines labels ps (classifyLine labels ps st line) rest

/-- The resolved records Parse extracts from the original text. -/
def classifyAll (labels : List String) (ps : List NormalizePattern)
    (sep text : String) : List LabelValue :=
  (classifyLines labels ps ([], true) (goSplit text sep)).1

/-- Sort.Slice of the replacement keys with less(i, j) = len(keys[i]) >
len(keys[j]): an insertion sort by decreasing length.  Go's sort is unstable
and the map iteration order feeding it is unspecified, so the order of
equal-length keys is a determinization here; no claim observes such ties. -/
def sortKeysDesc (ks : List String) : List String :=
  List.insertionSort (fun a b => b.length ≤ a.length) ks

/-- Association-list write with Go map semantics (used when lower-casing the
replacement keys builds a fresh map). -/
def assocPut (m : List (String × String)) (k v : String) : List (String × String) :=
  if m.any (fun kv => kv.1 == k) then
    m.map (fun kv => if kv.1 == k then (k, v) else kv)
  else m ++ [(k, v)]

/-- Map read with default "". -/
def assocGet (m : List (String × String)) (k : String) : String :=
  ((m.find? (fun kv => kv.1 == k)).map (fun kv => kv.2)).getD ""

/-- The replacement step of Parse (normalizer.go lines 554-585): when
replacements exist — under a fuzzy transform lower-case the value and the
keys — sort the keys longest first, run the single-pass multi-replacer and
trim; with no replacements the value passes through untouched. -/
def transformValue (vt : ValueTransform) (value0 : String) : String :=
  if vt.Replaces.length = 0 then value0
  else
    let raw := if vt.MatchMethod = FuzzyMatch then goToLower value0 else value0
    let reps :=
      if vt.MatchMethod = FuzzyMatch then
        vt.Replaces.foldl (fun acc kv => assocPut acc (goToLower kv.1) kv.2) []
      else vt.Replaces
    let keys := sortKeysDesc (reps.map (fun kv => kv.1))
    let pairs := keys.map (fun k => (k, assocGet reps k))
    goTrimSpace (goReplace pairs raw)

/-- The casting step of Parse for one resolved record.  The errIn argument
is the Go err variable as it stands when the record is processed: the source
declares a single err at the Validate call and the string, array and most
boolean arms never reassign it, so a previous record's error survives into
later iterations. -/
def castLine (errIn : Option String) (lv : LabelValue) : GoValue × Option String :=
  let rawValue := transformValue lv.transform lv.value
  if lv.valueType = booleanValueType then
    if rawValue = "" then (.vBool false, errIn)
    else
      let low := goToLower rawValue
      if low = "y" || low = "yes" then (.vBool true, errIn)
      else if low = "n" || low = "no" then (.vBool false, errIn)
      else
        let r := goParseBool low
        (.vBool r.1, r.2)
  else if lv.valueType = intValueType then
    let r := goParseInt rawValue
    (.vInt r.1, r.2)
  else if lv.valueType = floatValueType then
    let r := goParseFloat rawValue
    (.vFloat r.1, r.2)
  else if lv.valueType = arrayValueType then
    (.vArr (stringxSplit rawValue lv.transform.Separators), errIn)
  else (.vStr rawValue, errIn)

/-- Go fmt %s formatting of an interface value.  Only the string arm is
reachable: the aggregator formats a value here only in the string-type merge,
whose operands are always vStr. -/
def sprintfS : GoValue → String
  | .vStr s => s
  | .vBool b => if b then "%!s(bool=true)" else "%!s(bool=false)"
  | .vInt i => "%!s(int64=" ++ toString i ++ ")"
  | .vFloat _ => "%!s(float64)"
  | .vArr xs => "[" ++ goJoin xs " " ++ "]"
  | .vNull => "%!s(<nil>)"

/-- The elements behind a []interface{} type assertion.  In Go a failed
assertion panics; the arm for non-arrays is unreachable because the
array-type merge only ever sees values the engine itself stored as arrays. -/
def goListOf : GoValue → List String
  | .vArr xs => xs
  | _ => []

/-- The merge of one resolved record into the Items map (normalizer.go lines
615-631): for a present key, string values append with a newline unless the
stored value is the empty string, arrays concatenate, every other type
overwrites; an absent key is simply set. -/
def mergeLine (its : Items) (lv : LabelValue) (value : GoValue) : Items :=
  match itemsLookup its lv.key with
  | some v =>
    if lv.valueType = stringValueType then
      (if v ≠ .vStr "" then
        itemsSet its lv.key (.vStr (sprintfS v ++ "\n" ++ sprintfS value))
      else itemsSet its lv.key value)
    else if lv.valueType = arrayValueType then
      itemsSet its lv.key (.vArr (goListOf v ++ goListOf value))
    else itemsSet its lv.key value
  | none => itemsSet its lv.key value

/-- Parse's second loop: transform, cast and merge each resolved record,
threading the shared err variable and appending its content to the error
list whenever it is non-nil after a record. -/
def aggregate (its : Items) (errs : List String) (errIn : Option String) :
    List LabelValue → Items × List String
  | [] => (its, errs)
  | lv :: rest =>
    let r := castLine errIn lv
    let errs2 := match r.2 with
      | some e => errs ++ [e]
      | none => errs
    aggregate (mergeLine its lv r.1) errs2 r.2 rest

/-- Parse (normalizer.go lines 462-635): reset the error list; return at
once when no patterns are set or the text is empty; fail fast on a
validation error; otherwise classify the lines and aggregate the resolved
records into the Items map. -/
def parse (n : Normalizer) : Normalizer :=
  if n.Patterns.length = 0 ∨ n.OriginalText = "" then { n with Errors := [] }
  else
    match validate n with
    | some e => { n with Errors := [e] }
    | none =>
      let kvLines := classifyAll n.labels n.Patterns n.Separator n.OriginalText
      let res := aggregate n.ItemsMap [] none kvLines
      { n with ItemsMap := res.1, Errors := res.2 }

/-- Ok (normalizer.go): no recorded errors. -/
def ok (n : Normalizer) : Bool :=
  n.Errors.length = 0

/-- Key membership in a list of value keys. -/
def keyIn (ks : List String) (k : String) : Bool :=
  ks.any (fun x => x == k)

/-- Transform with no replacements and no separators. -/
def vtNone : ValueTransform :=
  { MatchMethod := ExactMatch, Replaces := [], Separators := [] }

/-- A string-typed exact rule on label "name" with value key "k". -/
def strPat : NormalizePattern :=
  { Labels := ["name"], MatchMethod := ExactMatch, Separator := ":", ValueKey := "k",
    Transform := vtNone, ValueType := stringValueType, DefaultValue := .vStr "" }

/-- An int-typed exact rule on label "age" with value key "age". -/
def intPat : NormalizePattern :=
  { Labels := ["age"], MatchMethod := ExactMatch, Separator := ":", ValueKey := "age",
    Transform := vtNone, ValueType := intValueType, DefaultValue := .vInt 0 }

/-- A string-typed exact rule on label "name" with value key "name". -/
def namePat : NormalizePattern :=
  { Labels := ["name"], MatchMethod := ExactMatch, Separator := ":", ValueKey := "name",
    Transform := vtNone, ValueType := stringValueType, DefaultValue := .vStr "" }

/-- An array-typed exact rule on label "tags" splitting on ",". -/
def arrPat : NormalizePattern :=
  { Labels := ["tags"], MatchMethod := ExactMatch, Separator := ":", ValueKey := "tags",
    Transform := { MatchMethod := ExactMatch, Replaces := [], Separators := [","] },
    ValueType := arrayValueType, DefaultValue := .vArr [] }

/-- A fuzzy string rule with a single keyword and value key "k". -/
def fuzzyPat (kw : String) : NormalizePattern :=
  { Labels := [kw], MatchMethod := FuzzyMatch, Separator := ":", ValueKey := "k",
    Transform := vtNone, ValueType := stringValueType, DefaultValue := .vStr "" }

/-- Engine configured with SetPatterns first and SetOriginalText second, on a
text without any matching line. -/
def c1n : Normalizer := setOriginalText (setPatterns newNormalizer [strPat]) "hello"

/-- Engine configured for one string field, SetPatterns last. -/
def c2n : Normalizer := setPatterns (setOriginalText newNormalizer "name:John") [strPat]

/-- Fuzzy keyword "four" against a line whose label is the larger word
"fourteen". -/
def c3a : Normalizer := setPatterns (setOriginalText newNormalizer "fourteen:x") [fuzzyPat "four"]

/-- Fuzzy keyword "name" against an upper-case label. -/
def c3b : Normalizer := setPatterns (setOriginalText newNormalizer "NAME:x") [fuzzyPat "name"]

/-- Two lines carrying the same string-rule label. -/
def c4n : Normalizer := setPatterns (setOriginalText newNormalizer "name:A\nname:B") [strPat]

/-- Two lines carrying the same int-rule label. -/
def c4int : Normalizer := setPatterns (setOriginalText newNormalizer "age:1\nage:2") [intPat]

/-- Two lines carrying the same array-rule label. -/
def c4arr : Normalizer := setPatterns (setOriginalText newNormalizer "tags:a,b\ntags:c,d") [arrPat]

/-- A rule with an empty label list (invalid). -/
def badPat : NormalizePattern :=
  { Labels := [], MatchMethod := ExactMatch, Separator := ":", ValueKey := "b",
    Transform := vtNone, ValueType := stringValueType, DefaultValue := .vStr "" }

/-- Engine with an empty (hence invalid) rule set and a non-blank text. -/
def c6empty : Normalizer := setOriginalText newNormalizer "a:b"

/-- Engine with a non-empty invalid rule set and a non-blank text. -/
def c6n : Normalizer := setPatterns (setOriginalText newNormalizer "a:b") [badPat]

/-- An int field whose value fails to parse followed by a string field whose
cast succeeds. -/
def c7n : Normalizer :=
  setPatterns (setOriginalText newNormalizer "age:abc\nname:Bob") [intPat, namePat]

/-- The int cast error produced on "abc". -/
def c7msg : String := "strconv.ParseInt: parsing \"abc\": invalid syntax"

/-- The replacement pairs of the claim, in the stated order. -/
def c8vt1 : ValueTransform :=
  { MatchMethod := ExactMatch, Replaces := [("fourteen", "14"), ("four", "4")], Separators := [] }

/-- The replacement pairs of the claim, in the reversed order. -/
def c8vt2 : ValueTransform :=
  { MatchMethod := ExactMatch, Replaces := [("four", "4"), ("fourteen", "14")], Separators := [] }

/-- The same pairs under a fuzzy transform. -/
def c8vtFuzzy : ValueTransform :=
  { MatchMethod := FuzzyMatch, Replaces := [("fourteen", "14"), ("four", "4")], Separators := [] }

/-- An exact rule whose keyword has a single interior space. -/
def c9pat : NormalizePattern :=
  { Labels := ["you name"], MatchMethod := ExactMatch, Separator := ":", ValueKey := "k",
    Transform := vtNone, ValueType := stringValueType, DefaultValue := .vStr "" }

/-- A line whose label carries a run of interior spaces. -/
def c9n : Normalizer := setPatterns (setOriginalText newNormalizer "you     name: x") [c9pat]

/-- An array rule with a caller-supplied non-empty default. -/
def c10pat : NormalizePattern :=
  { Labels := ["x"], MatchMethod := ExactMatch, Separator := ":", ValueKey := "k",
    Transform := vtNone, ValueType := arrayValueType, DefaultValue := .vArr ["a"] }

/-- Validity of one rule in the words of claim C5: non-blank value key, a
recognized value type, a non-empty label list. -/
def specRuleOk (p : NormalizePattern) : Prop :=
  goTrimSpace p.ValueKey ≠ "" ∧ strIn p.ValueType validValueTypes = true ∧ p.Labels ≠ []

/-- Compatibility of two rules in the words of claim C5: value keys differ
case-insensitively and no label keyword of one case-folds equal to a label
keyword of the other. -/
def specNoConflict (p q : NormalizePattern) : Prop :=
  goEqualFold p.ValueKey q.ValueKey = false ∧
  ∀ k1 ∈ p.Labels, ∀ k2 ∈ q.Labels, goEqualFold k1 k2 = false

/-- Validity of a rule set in the words of claim C5. -/
def specValidRules (ps : List NormalizePattern) : Prop :=
  (∀ p ∈ ps, specRuleOk p) ∧ List.Pairwise specNoConflict ps

lemma any_fst_map_set (its : Items) (kk k : String) (v : GoValue) :
    ((its.map (fun kv => if kv.1 == kk then (kk, v) else kv)).any (fun kv => kv.1 == k))
      = its.any (fun kv => kv.1 == k) := by
  induction its with
  | nil => rfl
  | cons kv rest ih =>
    rw [List.map_cons, List.any_cons, List.any_cons, ih]
    by_cases hkv : (kv.1 == kk) = true
    · have h1 : kv.1 = kk := eq_of_beq hkv
      rw [if_pos hkv]
      rw [h1]
    · rw [if_neg hkv]

lemma itemsHas_itemsSet (its : Items) (kk k : String) (v : GoValue) :
    itemsHas (itemsSet its kk v) k = (itemsHas its k || (kk == k)) := by
  unfold itemsSet
  split
  case isTrue h =>
    unfold itemsHas
    rw [any_fst_map_set]
    by_cases hk : (kk == k) = true
    · have h2 : kk = k := eq_of_beq hk
      subst h2
      unfold itemsHas at h
      simp [h]
    · simp [hk]
  case isFalse h =>
    unfold itemsHas
    simp [List.any_append]

lemma itemsHas_eq_isSome (its : Items) (k : String) :
    itemsHas its k = (itemsLookup its k).isSome := by
  induction its with
  | nil => rfl
  | cons kv rest ih =>
    unfold itemsHas itemsLookup at ih ⊢
    rw [List.any_cons, List.find?_cons]
    by_cases hkv : (kv.1 == k) = true
    · simp [hkv]
    · simp only [hkv]
      simp only [Bool.false_or]
      rw [ih]

lemma itemsHas_foldDefaults : ∀ (ps : List NormalizePattern) (its0 : Items) (k : String),
    itemsHas
      (ps.foldl (fun its p => itemsSet its p.ValueKey (castDefault p.ValueType p.DefaultValue)) its0) k
      = (itemsHas its0 k || keyIn (ps.map (fun p => p.ValueKey)) k) := by
  intro ps
  induction ps with
  | nil => intro its0 k; simp [keyIn]
  | cons p rest ih =>
    intro its0 k
    rw [List.foldl_cons, ih, itemsHas_itemsSet]
    unfold keyIn
    rw [List.map_cons, List.any_cons, Bool.or_assoc]

lemma itemsHas_setPatterns (n : Normalizer) (ps : List NormalizePattern) (k : String) :
    itemsHas (setPatterns n ps).ItemsMap k = keyIn (ps.map (fun p => p.ValueKey)) k := by
  show itemsHas (buildItems ps) k = _
  unfold buildItems
  rw [itemsHas_foldDefaults]
  rfl

lemma itemsHas_itemsSet_present (its : Items) (kk k : String) (v : GoValue)
    (h : itemsHas its kk = true) :
    itemsHas (itemsSet its kk v) k = itemsHas its k := by
  rw [itemsHas_itemsSet]
  by_cases hk : (kk == k) = true
  · have h2 : kk = k := eq_of_beq hk
    subst h2
    simp [h]
  · simp [hk]

lemma mergeLine_has (its : Items) (lv : LabelValue) (v : GoValue)
    (h : itemsHas its lv.key = true) (k : String) :
    itemsHas (mergeLine its lv v) k = itemsHas its k := by
  unfold mergeLine
  cases hl : itemsLookup its lv.key with
  | none =>
    rw [itemsHas_eq_isSome, hl] at h
    simp at h
  | some v0 =>
    simp only [hl]
    split
    · split
      · exact itemsHas_itemsSet_present its lv.key k _ h
      · exact itemsHas_itemsSet_present its lv.key k _ h
    · split
      · exact itemsHas_itemsSet_present its lv.key k _ h
      · exact itemsHas_itemsSet_present its lv.key k _ h

lemma aggregate_has : ∀ (kvs : List LabelValue) (its : Items) (errs : List String)
    (err : Option String),
    (∀ lv ∈ kvs, itemsHas its lv.key = true) →
    ∀ k, itemsHas (aggregate its errs err kvs).1 k = itemsHas its k := by
  intro kvs
  induction kvs with
  | nil => intro its errs err _ k; rfl
  | cons lv rest ih =>
    intro its errs err h k
    simp only [aggregate]
    have hlv : itemsHas its lv.key = true := h lv (List.mem_cons_self _ _)
    have hrest : ∀ lv2 ∈ rest, itemsHas (mergeLine its lv (castLine err lv).1) lv2.key = true := by
      intro lv2 h2
      rw [mergeLine_has its lv _ hlv]
      exact h lv2 (List.mem_cons_of_mem _ h2)
    rw [ih _ _ _ hrest k, mergeLine_has its lv _ hlv]

lemma aggregate_errs_indep : ∀ (kvs : List LabelValue) (i1 i2 : Items) (errs : List String)
    (err : Option String),
    (aggregate i1 errs err kvs).2 = (aggregate i2 errs err kvs).2 := by
  intro kvs
  induction kvs with
  | nil => intros; rfl
  | cons lv rest ih =>
    intro i1 i2 errs err
    simp only [aggregate]
    exact ih _ _ _ _

lemma mem_of_getLast? {α : Type} : ∀ {l : List α} {a : α}, l.getLast? = some a → a ∈ l := by
  intro l
  induction l with
  | nil => intro a h; cases h
  | cons x xs ih =>
    intro a h
    cases xs with
    | nil =>
      cases h
      exact List.mem_singleton_self x
    | cons y ys =>
      rw [List.getLast?_cons_cons] at h
      exact List.mem_cons_of_mem x (ih h)

lemma keywordMatch_key {p : NormalizePattern} {line kw : String} {lv : LabelValue}
    (h : keywordMatch p line kw = some lv) : lv.key = p.ValueKey := by
  simp only [keywordMatch] at h
  split_ifs at h <;> cases h <;> rfl
lemma matchKeywords_key {p : NormalizePattern} :
    ∀ {kws : List String} {line : String} {lv : LabelValue},
    matchKeywords p kws line = some lv → lv.key = p.ValueKey := by
  intro kws
  induction kws with
  | nil => intro line lv h; cases h
  | cons kw rest ih =>
    intro line lv h
    unfold matchKeywords at h
    split at h
    · cases h
      exact keywordMatch_key (by assumption)
    · exact ih h

lemma findMatch_key : ∀ {ps : List NormalizePattern} {line : String} {lv : LabelValue},
    findMatch ps line = some lv → keyIn (ps.map (fun p => p.ValueKey)) lv.key = true := by
  intro ps
  induction ps with
  | nil => intro line lv h; cases h
  | cons p rest ih =>
    intro line lv h
    unfold findMatch at h
    unfold keyIn
    rw [List.map_cons, List.any_cons]
    split at h
    · cases h
      have hk : lv.key = p.ValueKey := matchKeywords_key (by assumption)
      rw [hk]
      simp
    · rw [Bool.or_eq_true]
      right
      exact ih h

lemma classifyLine_keys (labels : List String) (ps : List NormalizePattern)
    (st : List LabelValue × Bool) (line : String)
    (h : ∀ lv ∈ st.1, keyIn (ps.map (fun p => p.ValueKey)) lv.key = true) :
    ∀ lv ∈ (classifyLine labels ps st line).1,
      keyIn (ps.map (fun p => p.ValueKey)) lv.key = true := by
  simp only [classifyLine]
  split
  · exact h
  · split
    · split
      · exact h
      · next lastLv hlast =>
        split
        · next lv0 hfm =>
          intro lv hm
          simp only [List.mem_append, List.mem_singleton] at hm
          rcases hm with (hm | hm) | hm
          · exact h lv hm
          · subst hm
            exact h lastLv (mem_of_getLast? hlast)
          · subst hm
            exact findMatch_key hfm
        · intro lv hm
          simp only [List.mem_append, List.mem_singleton] at hm
          rcases hm with hm | hm
          · exact h lv hm
          · subst hm
            exact h lastLv (mem_of_getLast? hlast)
    · split
      · next lv0 hfm =>
        intro lv hm
        simp only [List.mem_append, List.mem_singleton] at hm
        rcases hm with hm | hm
        · exact h lv hm
        · subst hm
          exact findMatch_key hfm
      · exact h

lemma classifyLines_keys (labels : List String) (ps : List NormalizePattern) :
    ∀ (lines : List String) (st : List LabelValue × Bool),
    (∀ lv ∈ st.1, keyIn (ps.map (fun p => p.ValueKey)) lv.key = true) →
    ∀ lv ∈ (classifyLines labels ps st lines).1,
      keyIn (ps.map (fun p => p.ValueKey)) lv.key = true := by
  intro lines
  induction lines with
  | nil => intro st h; exact h
  | cons line rest ih =>
    intro st h
    unfold classifyLines
    exact ih _ (classifyLine_keys labels ps st line h)

lemma classifyAll_keys (labels : List String) (ps : List NormalizePattern) (sep text : String) :
    ∀ lv ∈ classifyAll labels ps sep text,
      keyIn (ps.map (fun p => p.ValueKey)) lv.key = true := by
  unfold classifyAll
  exact classifyLines_keys labels ps _ _ (by intro lv hm; cases hm)

/-- The error list Parse computes, as a function of the configuration
only (the initial Items map does not influence it). -/
def parseErrs (labels : List String) (text sep : String) (ps : List NormalizePattern) :
    List String :=
  if ps.length = 0 ∨ text = "" then []
  else
    match validateCore sep ps with
    | some e => [e]
    | none => (aggregate [] [] none (classifyAll labels ps sep text)).2

lemma parse_labels (n : Normalizer) : (parse n).labels = n.labels := by
  unfold parse
  split
  · rfl
  · split <;> rfl

lemma parse_OriginalText (n : Normalizer) : (parse n).OriginalText = n.OriginalText := by
  unfold parse
  split
  · rfl
  · split <;> rfl

lemma parse_Separator (n : Normalizer) : (parse n).Separator = n.Separator := by
  unfold parse
  split
  · rfl
  · split <;> rfl

lemma parse_Patterns (n : Normalizer) : (parse n).Patterns = n.Patterns := by
  unfold parse
  split
  · rfl
  · split <;> rfl

lemma parse_Errors_spec (n : Normalizer) :
    (parse n).Errors = parseErrs n.labels n.OriginalText n.Separator n.Patterns := by
  unfold parse parseErrs validate
  split
  · rfl
  · split
    · rfl
    · exact aggregate_errs_indep _ _ _ _ _

lemma oor_eq_none {a b : Option String} : oor a b = none ↔ a = none ∧ b = none := by
  cases a <;> simp [oor]

lemma checkPattern_none (i : Nat) (p : NormalizePattern) :
    checkPattern i p = none ↔ specRuleOk p := by
  unfold checkPattern specRuleOk
  split_ifs with h1 h2 h3
  · simp only [false_iff]
    intro hc
    exact hc.1 h1
  · simp only [false_iff]
    intro hc
    rw [hc.2.1] at h2
    simp at h2
  · simp only [false_iff]
    intro hc
    exact hc.2.2 (List.length_eq_zero.mp h3)
  · simp only [true_iff]
    refine ⟨h1, ?_, ?_⟩
    · rcases hb : strIn p.ValueType validValueTypes with _ | _
      · rw [hb] at h2
        simp at h2
      · rfl
    · intro hnil
      rw [hnil] at h3
      simp at h3

lemma keywordDup_none (i j : Nat) (k1 : String) :
    ∀ k2s : List String, keywordDup i j k1 k2s = none ↔ ∀ k2 ∈ k2s, goEqualFold k1 k2 = false := by
  intro k2s
  induction k2s with
  | nil => simp [keywordDup]
  | cons k2 rest ih =>
    unfold keywordDup
    split_ifs with h1
    · simp only [false_iff]
      intro hc
      rw [hc k2 (List.mem_cons_self _ _)] at h1
      cases h1
    · rw [ih]
      constructor
      · intro hr k0 hm
        rcases List.mem_cons.mp hm with hm | hm
        · subst hm
          rcases hb : goEqualFold k1 k0 with _ | _
          · rfl
          · exact absurd hb h1
        · exact hr k0 hm
      · intro hall k0 hm
        exact hall k0 (List.mem_cons_of_mem _ hm)

lemma labelsDup_none (i j : Nat) :
    ∀ (k1s k2s : List String), labelsDup i j k1s k2s = none ↔
      ∀ k1 ∈ k1s, ∀ k2 ∈ k2s, goEqualFold k1 k2 = false := by
  intro k1s
  induction k1s with
  | nil => intro k2s; simp [labelsDup]
  | cons k1 rest ih =>
    intro k2s
    unfold labelsDup
    rw [oor_eq_none, keywordDup_none, ih]
    constructor
    · intro hc k0 hm
      rcases List.mem_cons.mp hm with hm | hm
      · subst hm
        exact hc.1
      · exact hc.2 k0 hm
    · intro hall
      exact ⟨hall k1 (List.mem_cons_self _ _), fun k0 hm => hall k0 (List.mem_cons_of_mem _ hm)⟩

lemma checkPair_none (i j : Nat) (p q : NormalizePattern) :
    checkPair i j p q = none ↔ specNoConflict p q := by
  unfold checkPair specNoConflict
  split_ifs with h1
  · simp only [false_iff]
    intro hc
    rw [hc.1] at h1
    cases h1
  · rw [labelsDup_none]
    constructor
    · intro hl
      refine ⟨?_, hl⟩
      rcases hb : goEqualFold p.ValueKey q.ValueKey with _ | _
      · rfl
      · exact absurd hb h1
    · intro hc
      exact hc.2

lemma checkAgainst_none (i : Nat) (p : NormalizePattern) :
    ∀ (rest : List NormalizePattern) (j : Nat),
      checkAgainst i p j rest = none ↔ ∀ q ∈ rest, specNoConflict p q := by
  intro rest
  induction rest with
  | nil => intro j; simp [checkAgainst]
  | cons q qs ih =>
    intro j
    unfold checkAgainst
    rw [oor_eq_none, checkPair_none, ih]
    constructor
    · intro hc q0 hm
      rcases List.mem_cons.mp hm with hm | hm
      · subst hm
        exact hc.1
      · exact hc.2 q0 hm
    · intro hall
      exact ⟨hall q (List.mem_cons_self _ _), fun q0 hm => hall q0 (List.mem_cons_of_mem _ hm)⟩

lemma validateLoop_none : ∀ (ps : List NormalizePattern) (i : Nat),
    validateLoop i ps = none ↔ specValidRules ps := by
  intro ps
  induction ps with
  | nil => intro i; simp [validateLoop, specValidRules]
  | cons p rest ih =>
    intro i
    unfold validateLoop
    rw [oor_eq_none, oor_eq_none, checkPattern_none, checkAgainst_none, ih]
    unfold specValidRules
    rw [List.pairwise_cons]
    constructor
    · rintro ⟨h1, h2, h3, h4⟩
      refine ⟨?_, h2, h4⟩
      intro p0 hm
      rcases List.mem_cons.mp hm with hm | hm
      · subst hm
        exact h1
      · exact h3 p0 hm
    · rintro ⟨h1, h2, h3⟩
      exact ⟨h1 p (List.mem_cons_self _ _),
        h2, ⟨fun p0 hm => h1 p0 (List.mem_cons_of_mem _ hm), h3⟩⟩

lemma parse_preserves_keys (n : Normalizer)
    (h : ∀ p ∈ n.Patterns, itemsHas n.ItemsMap p.ValueKey = true) (k : String) :
    itemsHas (parse n).ItemsMap k = itemsHas n.ItemsMap k := by
  unfold parse
  split
  · rfl
  · split
    · rfl
    · refine aggregate_has _ _ _ _ ?_ k
      intro lv hm
      have hkey := classifyAll_keys n.labels n.Patterns n.Separator n.OriginalText lv hm
      unfold keyIn at hkey
      rw [List.any_eq_true] at hkey
      obtain ⟨x, hx, hbeq⟩ := hkey
      obtain ⟨p, hp, hpkey⟩ := List.mem_map.mp hx
      have heq : p.ValueKey = lv.key := by
        rw [hpkey]
        exact eq_of_beq hbeq
      rw [← heq]
      exact h p hp

lemma parse_setPatterns_keys (n : Normalizer) (ps : List NormalizePattern) (k : String) :
    itemsHas (parse (setPatterns n ps)).ItemsMap k = keyIn (ps.map (fun p => p.ValueKey)) k := by
  rw [parse_preserves_keys (setPatterns n ps) ?h k, itemsHas_setPatterns]
  case h =>
    intro p hp
    rw [itemsHas_setPatterns]
    have hp2 : p ∈ ps.map fixPattern := hp
    obtain ⟨q, hq, hfq⟩ := List.mem_map.mp hp2
    have hkq : p.ValueKey = q.ValueKey := by
      rw [← hfq]
      rfl
    rw [hkq]
    unfold keyIn
    rw [List.any_eq_true]
    exact ⟨q.ValueKey, List.mem_map_of_mem _ hq, beq_self_eq_true _⟩

/-- Claim C1 fails as stated: the order of the configuration calls matters.
Here SetPatterns is followed by SetOriginalText, which resets the result
map to empty; the rule set is valid and Parse succeeds, yet the key "k" of
the only rule is absent from the result mapping because no line matched. -/
theorem C1_counterexample :
    validate c1n = none ∧ itemsHas (parse c1n).ItemsMap "k" = false :=
  ⟨rfl, rfl⟩

/-- Claim C1, amended: when SetPatterns is the last call that touches the
result mapping before Parse, the key set of Items after Parse equals exactly
the set of rule ValueKeys, whatever the rule set, text, separator and labels
are; and in general Parse preserves the key set of the mapping whenever
every rule's ValueKey is already present (so SetSeparator or SetLabels may
still follow SetPatterns).  SetOriginalText after SetPatterns breaks the
invariant, as the counterexample shows. -/
theorem C1_amended :
    (∀ (n : Normalizer) (ps : List NormalizePattern) (k : String),
      itemsHas (parse (setPatterns n ps)).ItemsMap k = keyIn (ps.map (fun p => p.ValueKey)) k) ∧
    (∀ n : Normalizer, (∀ p ∈ n.Patterns, itemsHas n.ItemsMap p.ValueKey = true) →
      ∀ k, itemsHas (parse n).ItemsMap k = itemsHas n.ItemsMap k) :=
  ⟨parse_setPatterns_keys, parse_preserves_keys⟩

/-- Witness for the hypothesis of C1's amended theorem at a concrete
configuration. -/
def c1w : Normalizer := setPatterns (setOriginalText newNormalizer "name:John") [strPat]

/-- Claim C1 witness: the amended theorem applied to a concrete engine
state whose mapping holds every rule key. -/
theorem C1_witness :
    (∀ p ∈ c1w.Patterns, itemsHas c1w.ItemsMap p.ValueKey = true) ∧
    itemsHas (parse c1w).ItemsMap "k" = itemsHas c1w.ItemsMap "k" :=
  ⟨by decide, C1_amended.2 c1w (by decide) "k"⟩

/-- Claim C2 fails as stated: a second Parse on the same engine appends the
string field's value again, so the Items mapping differs between one and two
invocations. -/
theorem C2_counterexample :
    itemsLookup (parse (parse c2n)).ItemsMap "k" ≠ itemsLookup (parse c2n).ItemsMap "k" := by
  decide

/-- Claim C2, amended: a second Parse always reproduces the same error list
(Parse recomputes it from the configuration only), but not the same Items
mapping: Parse never resets Items to the defaults, so a matched string field
is appended to itself joined by a newline (and an array field concatenated
to itself), as the concrete run shows. -/
theorem C2_amended :
    (∀ n : Normalizer, (parse (parse n)).Errors = (parse n).Errors) ∧
    itemsLookup (parse (parse c2n)).ItemsMap "k" = some (.vStr "John\nJohn") ∧
    itemsLookup (parse c2n).ItemsMap "k" = some (.vStr "John") := by
  refine ⟨?_, rfl, rfl⟩
  intro n
  rw [parse_Errors_spec (parse n), parse_labels, parse_OriginalText, parse_Separator,
    parse_Patterns, ← parse_Errors_spec n]

/-- Claim C3 fails as stated, in both directions: the fuzzy keyword "four"
matches the line "fourteen:x" although "four" occurs only strictly inside
the larger word "fourteen" (the value "x" is extracted), and the fuzzy
keyword "name" does not match the line "NAME:x" although it differs only in
case (the field keeps its default "").  -/
theorem C3_counterexample :
    itemsLookup (parse c3a).ItemsMap "k" = some (.vStr "x") ∧
    itemsLookup (parse c3b).ItemsMap "k" = some (.vStr "") :=
  ⟨rfl, rfl⟩

/-- Claim C3, amended: a fuzzy rule matches a line exactly when the line
contains the rule's segment separator and the lower-cased keyword occurs as
a plain substring (not necessarily a whole word) of the trimmed label
portion before the separator; the label itself is not case-folded, so the
comparison is case-sensitive on the label side and insensitive only to the
keyword's case. -/
theorem C3_amended (line kw : String) :
    (findMatch [fuzzyPat kw] line).isSome =
      (goContains line ":" &&
        goContains (goTrimSpace ((goSplit line ":").headD "")) (goToLower kw)) := by
  cases h1 : goContains line ":" with
  | false =>
    simp [findMatch, matchKeywords, keywordMatch, fuzzyPat, h1]
  | true =>
    cases h2 : goContains (goTrimSpace ((goSplit line ":").head?.getD "")) (goToLower kw) with
    | false =>
      simp [findMatch, matchKeywords, keywordMatch, fuzzyPat, FuzzyMatch, h1, h2]
    | true =>
      simp [findMatch, matchKeywords, keywordMatch, fuzzyPat, FuzzyMatch, h1, h2]

/-- Claim C4 fails as stated: on "name:A" followed by "name:B" the second
line is a fresh match of the same rule — the aggregator receives the
extracted remainder "B", giving "A\nB" — and not a continuation of the
first field, which would have carried the whole line text and produced
"A\nname:B". -/
theorem C4_counterexample :
    itemsLookup (parse c4n).ItemsMap "k" = some (.vStr "A\nB") ∧
    itemsLookup (parse c4n).ItemsMap "k" ≠ some (.vStr "A\nname:B") := by
  refine ⟨rfl, ?_⟩
  decide

/-- Claim C4, amended: there is no consumed flag — a rule matches every
line carrying its label, each such line becomes a fresh resolved record
whose value is the text after the separator, and the aggregator merges
repeats type-specifically: string values append joined by a newline, array
elements concatenate, and scalar types are overwritten by the last match. -/
theorem C4_amended :
    (classifyAll c4n.labels c4n.Patterns c4n.Separator c4n.OriginalText).length = 2 ∧
    itemsLookup (parse c4n).ItemsMap "k" = some (.vStr "A\nB") ∧
    itemsLookup (parse c4int).ItemsMap "age" = some (.vInt 2) ∧
    itemsLookup (parse c4arr).ItemsMap "tags" = some (.vArr ["a", "b", "c", "d"]) :=
  ⟨rfl, rfl, rfl, rfl⟩

/-- Claim C5 fails in its completeness direction: the empty rule set
violates none of the listed conditions, yet Validate reports an error
("no parsing rules configured"). -/
theorem C5_counterexample :
    specValidRules ([] : List NormalizePattern) ∧
    validateCore "\n" ([] : List NormalizePattern) ≠ none := by
  constructor
  · exact ⟨(by intro p hm; cases hm), List.Pairwise.nil⟩
  · decide

/-- Claim C5, amended: for a non-empty rule set and a non-empty line
separator, Validate succeeds exactly when no two rules share a value key
case-insensitively, no label keyword of one rule case-folds equal to a
label keyword of another, and every rule has a non-blank value key, a
recognized value type and a non-empty label list. -/
theorem C5_amended (sep : String) (ps : List NormalizePattern)
    (hsep : sep ≠ "") (hps : ps ≠ []) :
    validateCore sep ps = none ↔ specValidRules ps := by
  unfold validateCore
  rw [if_neg hsep, if_neg (fun h => hps (List.length_eq_zero.mp h))]
  exact validateLoop_none ps 0

/-- Claim C5 witness: the amended equivalence applied at a concrete
separator and one-rule set, with its hypotheses discharged. -/
theorem C5_witness :
    (("\n" : String) ≠ "" ∧ [strPat] ≠ ([] : List NormalizePattern)) ∧
    (validateCore "\n" [strPat] = none ↔ specValidRules [strPat]) :=
  ⟨⟨by decide, by decide⟩, C5_amended "\n" [strPat] (by decide) (by decide)⟩

/-- Claim C6 fails as stated: with an empty rule set — which Validate
rejects — and a non-blank text, Parse returns before validation ever runs,
so the error list is empty instead of holding the validation error. -/
theorem C6_counterexample :
    (validate c6empty).isSome = true ∧ (parse c6empty).Errors = [] :=
  ⟨rfl, rfl⟩

/-- Claim C6, amended: with a non-empty rule set and a non-blank text, an
invalid configuration makes Parse fail fast — the validation error is the
sole entry of the error list and the result mapping is untouched; with an
empty rule set or a blank text Parse instead returns at once with an empty
error list (even when the rule set is invalid), the mapping again
untouched. -/
theorem C6_amended (n : Normalizer) :
    ((n.Patterns = [] ∨ n.OriginalText = "") →
      (parse n).Errors = [] ∧ (parse n).ItemsMap = n.ItemsMap) ∧
    (∀ e, n.Patterns ≠ [] → n.OriginalText ≠ "" → validate n = some e →
      (parse n).Errors = [e] ∧ (parse n).ItemsMap = n.ItemsMap) := by
  constructor
  · intro hc
    unfold parse
    rw [if_pos]
    · exact ⟨rfl, rfl⟩
    · rcases hc with hc | hc
      · left
        rw [hc]
        rfl
      · right
        exact hc
  · intro e h1 h2 hv
    unfold parse
    rw [if_neg]
    · simp only [hv]
      constructor <;> trivial
    · intro hc
      rcases hc with hc | hc
      · exact h1 (List.length_eq_zero.mp hc)
      · exact h2 hc

/-- The validation message of the rule with no labels. -/
def c6msg : String := "解析规则第 1 项未设置标签关键词"

/-- Claim C6 witness: the amended fail-fast theorem applied to a concrete
invalid non-empty rule set and non-blank text. -/
theorem C6_witness :
    (c6n.Patterns ≠ [] ∧ c6n.OriginalText ≠ "" ∧ validate c6n = some c6msg) ∧
    ((parse c6n).Errors = [c6msg] ∧ (parse c6n).ItemsMap = c6n.ItemsMap) :=
  ⟨⟨by decide, by decide, rfl⟩, (C6_amended c6n).2 c6msg (by decide) (by decide) rfl⟩

/-- Claim C7 names a real code bug: the source reuses the single err
variable of Parse across the cast loop, and the string/array arms never
reset it, so after the int field "age:abc" fails to parse, the succeeding
string field "name:Bob" appends the stale int error a second time — the
error list holds the same message twice although exactly one cast failed,
while the string field itself is cast and merged correctly. -/
theorem C7_bug :
    (parse c7n).Errors = [c7msg, c7msg] ∧
    itemsLookup (parse c7n).ItemsMap "name" = some (.vStr "Bob") :=
  ⟨rfl, rfl⟩

instance lenDescTotal : IsTotal String (fun a b => b.length ≤ a.length) :=
  ⟨fun a b => Nat.le_total b.length a.length⟩

instance lenDescTrans : IsTrans String (fun a b => b.length ≤ a.length) :=
  ⟨fun _ _ _ hab hbc => Nat.le_trans hbc hab⟩

/-- Claim C8 confirmed: the replacement keys are always applied in an order
sorted by decreasing length (the sorted list being a permutation of the
configured keys), and the replacements fourteen-to-14 and four-to-4 applied
to "fourteen,four" produce "14,4" — in both configuration orders, and also
under a fuzzy transform. -/
theorem C8_confirmed :
    (∀ ks : List String, List.Sorted (fun a b => b.length ≤ a.length) (sortKeysDesc ks)) ∧
    (∀ ks : List String, List.Perm (sortKeysDesc ks) ks) ∧
    transformValue c8vt1 "fourteen,four" = "14,4" ∧
    transformValue c8vt2 "fourteen,four" = "14,4" ∧
    transformValue c8vtFuzzy "fourteen,four" = "14,4" :=
  ⟨fun ks => List.sorted_insertionSort _ ks, fun ks => List.perm_insertionSort _ ks,
    rfl, rfl, rfl⟩

/-- Claim C9 names a real code bug: the repository README documents that
loose-mode label handling collapses interior whitespace runs (full-width
space included) so that extra spaces cannot break a match, but cleanLabel
only trims and lower-cases — the line "you     name: x" fails to match the
keyword "you name" (the field keeps its default "") and cleanLabel
preserves the interior run. -/
theorem C9_bug :
    itemsLookup (parse c9n).ItemsMap "k" = some (.vStr "") ∧
    cleanLabel "You     Name" = "you     name" :=
  ⟨rfl, rfl⟩

/-- Claim C10 names a real code bug: SetPatterns means to keep a
caller-supplied slice default for an array-typed rule, but its type switch
tests against go/types.Slice — a compiler-API type no configuration value
inhabits — so the preserving arm is dead and every array default collapses
to the empty sequence: the non-empty default ["a"] is stored as []. -/
theorem C10_bug :
    itemsLookup (setPatterns newNormalizer [c10pat]).ItemsMap "k" = some (.vArr []) :=
  rfl
